import Mathlib

/-!
Verification of `src/ingest/prepare_data.py` (blx/blx.sortable).

The program is a single routine `write_csv(jsonlines, outcsv, fields)`:
it opens the destination, writes a fully-quoted header row, then for each
input line parses it with `json.loads`, projects the field list with
`obj.get(k, '')`, encodes each cell with `.encode('utf8')`, and writes the
resulting fully-quoted CSV row.  Errors (a `ValueError` from `json.loads`,
an `AttributeError` from calling `.get` on a non-dict or `.encode` on a
non-string value) propagate and abort the job, leaving the rows written so
far in the destination file.

We embed this shallowly: the JSON values, the parse step, the per-line row
construction, and the in-order traversal are explicit Lean functions; the
sequence of rows actually written to the file (together with the error that
stopped the run, if any) is the result value.
-/

namespace PrepareData

/-- A parsed JSON value, as produced by Python 2's `json.loads`:
unicode strings, numbers (we keep the numeric lexeme, since the program
never does arithmetic on them), booleans, null, arrays and objects
(objects as member lists in source order; lookup takes the last binding,
matching dict construction where later duplicate keys overwrite). -/
inductive Json where
  | jnull : Json
  | jbool : Bool → Json
  | jnum : String → Json
  | jstr : String → Json
  | jarr : List Json → Json
  | jobj : List (String × Json) → Json
deriving Inhabited

/-- The exceptions the program can raise while processing a line:
`valueError` from `json.loads` on input that is not valid JSON, and
`attributeError a` from calling the missing attribute `a`
(`.get` on a non-dict result, `.encode` on a non-string cell value). -/
inductive PyError where
  | valueError : PyError
  | attributeError : String → PyError
deriving Repr, DecidableEq

/-! ### A model of `json.loads`

`json.loads` is Python-library code, not part of this repository.
Modelled from the spec: lines are "serialized JSON object(s)" and a
ParseError means the line "is not syntactically valid JSON"; we model the
library call as a recursive-descent parser for standard JSON (plus the
`NaN` / `Infinity` / `-Infinity` extensions Python's decoder accepts by
default), returning `valueError` exactly when the whole line fails to
parse as one JSON value surrounded by whitespace. -/

def isJsonWs (c : Char) : Bool :=
  c = ' ' || c = '\t' || c = '\n' || c = '\r'

def skipWs : List Char → List Char
  | [] => []
  | c :: rest => if isJsonWs c then skipWs rest else c :: rest

def hexVal (c : Char) : Option Nat :=
  if '0' ≤ c ∧ c ≤ '9' then some (c.toNat - '0'.toNat)
  else if 'a' ≤ c ∧ c ≤ 'f' then some (c.toNat - 'a'.toNat + 10)
  else if 'A' ≤ c ∧ c ≤ 'F' then some (c.toNat - 'A'.toNat + 10)
  else none

def hex4 : List Char → Option (Nat × List Char)
  | a :: b :: c :: d :: rest =>
    match hexVal a, hexVal b, hexVal c, hexVal d with
    | some x, some y, some z, some w => some (((x * 16 + y) * 16 + z) * 16 + w, rest)
    | _, _, _, _ => none
  | _ => none

/-- Body of a JSON string literal, after the opening quote: standard
escapes, `\uXXXX` with surrogate-pair combining, raw control characters
rejected (the decoder runs in strict mode). -/
def parseStringBody : Nat → List Char → Option (List Char × List Char)
  | 0, _ => none
  | _ + 1, [] => none
  | fuel + 1, c :: rest =>
    if c = '"' then some ([], rest)
    else if c = '\\' then
      match rest with
      | [] => none
      | e :: rest2 =>
        let simple : Option Char :=
          if e = '"' then some '"'
          else if e = '\\' then some '\\'
          else if e = '/' then some '/'
          else if e = 'b' then some (Char.ofNat 8)
          else if e = 'f' then some (Char.ofNat 12)
          else if e = 'n' then some '\n'
          else if e = 'r' then some '\r'
          else if e = 't' then some '\t'
          else none
        match simple with
        | some ch =>
          match parseStringBody fuel rest2 with
          | some (tail, rem) => some (ch :: tail, rem)
          | none => none
        | none =>
          if e = 'u' then
            match hex4 rest2 with
            | none => none
            | some (n, rest3) =>
              if 0xD800 ≤ n ∧ n ≤ 0xDBFF then
                match rest3 with
                | '\\' :: 'u' :: rest4 =>
                  match hex4 rest4 with
                  | some (m, rest5) =>
                    if 0xDC00 ≤ m ∧ m ≤ 0xDFFF then
                      match parseStringBody fuel rest5 with
                      | some (tail, rem) =>
                        some (Char.ofNat (0x10000 + (n - 0xD800) * 0x400 + (m - 0xDC00)) :: tail, rem)
                      | none => none
                    else none
                  | none => none
                | _ => none
              else if 0xDC00 ≤ n ∧ n ≤ 0xDFFF then none
              else
                match parseStringBody fuel rest3 with
                | some (tail, rem) => some (Char.ofNat n :: tail, rem)
                | none => none
          else none
    else if c.toNat < 0x20 then none
    else
      match parseStringBody fuel rest with
      | some (tail, rem) => some (c :: tail, rem)
      | none => none

def isDigit (c : Char) : Bool := '0' ≤ c && c ≤ '9'

def takeDigits : List Char → List Char × List Char
  | [] => ([], [])
  | c :: rest =>
    if isDigit c then
      let (ds, rem) := takeDigits rest
      (c :: ds, rem)
    else ([], c :: rest)

/-- The integer part of a JSON number: `0`, or a nonzero digit followed by
digits.  Returns the consumed lexeme. -/
def parseIntPart : List Char → Option (List Char × List Char)
  | [] => none
  | c :: rest =>
    if c = '0' then some (['0'], rest)
    else if isDigit c then
      let (ds, rem) := takeDigits rest
      some (c :: ds, rem)
    else none

def parseFracPart : List Char → Option (List Char × List Char)
  | '.' :: rest =>
    match takeDigits rest with
    | ([], _) => none
    | (ds, rem) => some ('.' :: ds, rem)
  | other => some ([], other)

def parseExpPart : List Char → Option (List Char × List Char)
  | c :: rest =>
    if c = 'e' ∨ c = 'E' then
      match rest with
      | s :: rest2 =>
        if s = '+' ∨ s = '-' then
          match takeDigits rest2 with
          | ([], _) => none
          | (ds, rem) => some (c :: s :: ds, rem)
        else
          match takeDigits rest with
          | ([], _) => none
          | (ds, rem) => some (c :: ds, rem)
      | [] => none
    else some ([], c :: rest)
  | [] => some ([], [])

/-- A JSON number (optionally signed), keeping the lexeme. -/
def parseNumber (input : List Char) : Option (Json × List Char) :=
  let (sign, afterSign) :=
    match input with
    | '-' :: rest => (['-'], rest)
    | other => (([] : List Char), other)
  match parseIntPart afterSign with
  | none => none
  | some (ip, rest1) =>
    match parseFracPart rest1 with
    | none => none
    | some (fp, rest2) =>
      match parseExpPart rest2 with
      | none => none
      | some (ep, rest3) =>
        some (Json.jnum (String.mk (sign ++ ip ++ fp ++ ep)), rest3)

def stripPrefixChars (pre : List Char) (input : List Char) : Option (List Char) :=
  match pre, input with
  | [], rest => some rest
  | p :: ps, c :: cs => if p = c then stripPrefixChars ps cs else none
  | _ :: _, [] => none

mutual

/-- One JSON value, leading whitespace allowed. -/
def parseValue : Nat → List Char → Option (Json × List Char)
  | 0, _ => none
  | fuel + 1, input =>
    match skipWs input with
    | [] => none
    | c :: rest =>
      if c = '"' then
        match parseStringBody (rest.length + 1) rest with
        | some (body, rem) => some (Json.jstr (String.mk body), rem)
        | none => none
      else if c = Char.ofNat 0x7b then
        parseObjMembers fuel rest []
      else if c = '[' then
        parseArrayItems fuel rest []
      else if c = 'n' then
        match stripPrefixChars ['u', 'l', 'l'] rest with
        | some rem => some (Json.jnull, rem)
        | none => none
      else if c = 't' then
        match stripPrefixChars ['r', 'u', 'e'] rest with
        | some rem => some (Json.jbool true, rem)
        | none => none
      else if c = 'f' then
        match stripPrefixChars ['a', 'l', 's', 'e'] rest with
        | some rem => some (Json.jbool false, rem)
        | none => none
      else if c = 'N' then
        match stripPrefixChars ['a', 'N'] rest with
        | some rem => some (Json.jnum "NaN", rem)
        | none => none
      else if c = 'I' then
        match stripPrefixChars ['n', 'f', 'i', 'n', 'i', 't', 'y'] rest with
        | some rem => some (Json.jnum "Infinity", rem)
        | none => none
      else if c = '-' then
        match stripPrefixChars ['I', 'n', 'f', 'i', 'n', 'i', 't', 'y'] rest with
        | some rem => some (Json.jnum "-Infinity", rem)
        | none => parseNumber (c :: rest)
      else parseNumber (c :: rest)

/-- Items of a JSON array, after the opening bracket; `acc` holds the
items parsed so far, in order. -/
def parseArrayItems : Nat → List Char → List Json → Option (Json × List Char)
  | 0, _, _ => none
  | fuel + 1, input, acc =>
    match skipWs input with
    | [] => none
    | c :: rest =>
      if c = ']' && acc.isEmpty then some (Json.jarr [], rest)
      else
        match parseValue fuel input with
        | none => none
        | some (v, rem) =>
          match skipWs rem with
          | ',' :: rem2 => parseArrayItems fuel rem2 (acc ++ [v])
          | ']' :: rem2 => some (Json.jarr (acc ++ [v]), rem2)
          | _ => none

/-- Members of a JSON object, after the opening brace; `acc` holds the
members parsed so far, in source order. -/
def parseObjMembers : Nat → List Char → List (String × Json) → Option (Json × List Char)
  | 0, _, _ => none
  | fuel + 1, input, acc =>
    match skipWs input with
    | [] => none
    | c :: rest =>
      if c = Char.ofNat 0x7d && acc.isEmpty then some (Json.jobj [], rest)
      else if c = '"' then
        match parseStringBody (rest.length + 1) rest with
        | none => none
        | some (key, rem) =>
          match skipWs rem with
          | ':' :: rem2 =>
            match parseValue fuel rem2 with
            | none => none
            | some (v, rem3) =>
              match skipWs rem3 with
              | ',' :: rem4 => parseObjMembers fuel rem4 (acc ++ [(String.mk key, v)])
              | d :: rem4 =>
                if d = Char.ofNat 0x7d then some (Json.jobj (acc ++ [(String.mk key, v)]), rem4)
                else none
              | [] => none
          | _ => none
      else none

end

/-- Model of Python's `json.loads` applied to one input line: parse one
JSON value, allow surrounding whitespace, and raise `ValueError` when the
line is not exactly one valid JSON value. -/
def json_loads (line : String) : Except PyError Json :=
  match parseValue (line.length * 2 + 8) line.data with
  | some (v, rem) =>
    match skipWs rem with
    | [] => Except.ok v
    | _ :: _ => Except.error PyError.valueError
  | none => Except.error PyError.valueError

/-! ### The converter itself -/

/-- `obj.get(k, '')`: the value bound to key `k` in the parsed object, or
the empty string when the key is absent.  Later duplicate keys overwrite
earlier ones in the dict `json.loads` builds, hence the last binding. -/
def obj_get (obj : List (String × Json)) (k : String) : Json :=
  match obj.reverse.find? (fun p => p.1 == k) with
  | some p => p.2
  | none => Json.jstr ""

/-- `value.encode('utf8')`: succeeds exactly on strings (the unicode
values `json.loads` produces, and the `str` default `''`); every other
value — `None`, numbers, booleans, arrays, objects — has no `.encode`
attribute and raises `AttributeError`. -/
def encode_utf8 : Json → Except PyError String
  | Json.jstr s => Except.ok s
  | _ => Except.error (PyError.attributeError "encode")

/-- The list comprehension `[obj.get(k, '').encode('utf8') for k in fields]`,
evaluated left to right; the first failing cell aborts the row. -/
def buildRow (obj : List (String × Json)) : List String → Except PyError (List String)
  | [] => Except.ok []
  | k :: ks =>
    match encode_utf8 (obj_get obj k) with
    | Except.error e => Except.error e
    | Except.ok s =>
      match buildRow obj ks with
      | Except.error e => Except.error e
      | Except.ok r => Except.ok (s :: r)

/-- One iteration of the loop body for input line `line`: parse the line
(`ValueError` on invalid JSON), call `.get` on the result (`AttributeError`
unless it is a dict), and build the encoded cell list. -/
def lineRow (fields : List String) (line : String) : Except PyError (List String) :=
  match json_loads line with
  | Except.error e => Except.error e
  | Except.ok (Json.jobj obj) => buildRow obj fields
  | Except.ok _ => Except.error (PyError.attributeError "get")

/-- The observable outcome of a run of `write_csv`: the rows actually
passed to `csvf.writerow` (header first, in write order), and the
exception that aborted the run, if any.  Rows written before an exception
stay written — the file is not rolled back. -/
structure RunResult where
  rows : List (List String)
  err : Option PyError
deriving Repr, DecidableEq

/-- The `for line in jsonlines` loop: lines strictly in order; a row is
written for each line whose parse and projection succeed; the first
exception stops the loop with nothing further written. -/
def processLines (fields : List String) : List String → RunResult
  | [] => { rows := [], err := none }
  | line :: rest =>
    match lineRow fields line with
    | Except.error e => { rows := [], err := some e }
    | Except.ok row =>
      let r := processLines fields rest
      { rows := row :: r.rows, err := r.err }

/-- `write_csv(jsonlines, outcsv, fields)`: open (create or truncate) the
destination, write the header row `fields`, then run the loop.  The
result's `rows` are the file's contents as rows; `err` is the propagated
exception, if any. -/
def write_csv (jsonlines : List String) (fields : List String) : RunResult :=
  let r := processLines fields jsonlines
  { rows := fields :: r.rows, err := r.err }

/-! ### CSV rendering

`csv.writer(out, quoting=csv.QUOTE_ALL)` with the default dialect: every
cell is wrapped in `"` quotes, an embedded quote character is doubled,
cells are joined with `,`, and each row ends with `\r\n`. -/

/-- Double every quote character in a cell (the writer's `doublequote`
behaviour). -/
def escapeQuotes : List Char → List Char
  | [] => []
  | c :: rest =>
    if c = '"' then '"' :: '"' :: escapeQuotes rest
    else c :: escapeQuotes rest

/-- A cell as `QUOTE_ALL` writes it: wrapped in quote characters, embedded
quotes doubled. -/
def quoteCell (s : String) : String :=
  String.mk ('"' :: escapeQuotes s.data ++ ['"'])

/-- One `writerow` call: quoted cells joined by commas, `\r\n` terminator. -/
def renderRow (row : List String) : String :=
  String.intercalate "," (row.map quoteCell) ++ "\r\n"

/-- The byte content of the destination file: the written rows, rendered
in order. -/
def renderDoc : List (List String) → String
  | [] => ""
  | r :: rs => renderRow r ++ renderDoc rs

/-- Reading one quoted cell back (the round-trip direction the spec
describes): strip the wrapping quote characters and undo the doubling. -/
def unescapeQuotes : List Char → List Char
  | [] => []
  | [c] => [c]
  | c :: d :: rest =>
    if c = '"' ∧ d = '"' then '"' :: unescapeQuotes rest
    else c :: unescapeQuotes (d :: rest)

/-- Modelled from the spec: "parsing the produced CSV back into rows" —
the per-cell decode of a `QUOTE_ALL` cell: drop the wrapping quotes,
collapse doubled quotes. -/
def unquoteCell (s : String) : String :=
  String.mk (unescapeQuotes ((s.data.drop 1).dropLast))

/-! ### Structural lemmas about the embedding -/

theorem buildRow_length (obj : List (String × Json)) :
    ∀ (fields row : List String),
      buildRow obj fields = Except.ok row → row.length = fields.length := by
  intro fields
  induction fields with
  | nil =>
    intro row h
    simp only [buildRow] at h
    cases h
    rfl
  | cons k ks ih =>
    intro row h
    cases he : encode_utf8 (obj_get obj k) with
    | error e => simp [buildRow, he] at h
    | ok s =>
      cases hb : buildRow obj ks with
      | error e => simp [buildRow, he, hb] at h
      | ok r =>
        simp [buildRow, he, hb] at h
        subst h
        simp [ih r hb]

theorem buildRow_get (obj : List (String × Json)) :
    ∀ (fields row : List String) (i : Nat) (k : String),
      buildRow obj fields = Except.ok row → fields[i]? = some k →
      ∃ s, encode_utf8 (obj_get obj k) = Except.ok s ∧ row[i]? = some s := by
  intro fields
  induction fields with
  | nil =>
    intro row i k _ hk
    simp at hk
  | cons k0 ks ih =>
    intro row i k h hk
    cases he : encode_utf8 (obj_get obj k0) with
    | error e => simp [buildRow, he] at h
    | ok s =>
      cases hb : buildRow obj ks with
      | error e => simp [buildRow, he, hb] at h
      | ok r =>
        simp [buildRow, he, hb] at h
        subst h
        cases i with
        | zero =>
          simp at hk
          subst hk
          exact ⟨s, he, by simp⟩
        | succ i' =>
          simp at hk ⊢
          exact ih r i' k hb hk

theorem buildRow_ok (obj : List (String × Json)) :
    ∀ (fields : List String),
      (∀ k ∈ fields, ∃ s, encode_utf8 (obj_get obj k) = Except.ok s) →
      ∃ row, buildRow obj fields = Except.ok row := by
  intro fields
  induction fields with
  | nil => intro _; exact ⟨[], rfl⟩
  | cons k ks ih =>
    intro h
    obtain ⟨s, hs⟩ := h k (List.mem_cons_self k ks)
    obtain ⟨row, hrow⟩ := ih (fun k' hk' => h k' (List.mem_cons_of_mem k hk'))
    exact ⟨s :: row, by simp [buildRow, hs, hrow]⟩

theorem buildRow_cells (obj : List (String × Json)) :
    ∀ (fields row : List String),
      buildRow obj fields = Except.ok row →
      ∀ k ∈ fields, ∃ s, encode_utf8 (obj_get obj k) = Except.ok s := by
  intro fields
  induction fields with
  | nil => intro row _ k hk; cases hk
  | cons k0 ks ih =>
    intro row h k hk
    cases he : encode_utf8 (obj_get obj k0) with
    | error e => simp [buildRow, he] at h
    | ok s =>
      cases hb : buildRow obj ks with
      | error e => simp [buildRow, he, hb] at h
      | ok r =>
        rcases List.mem_cons.mp hk with rfl | hk'
        · exact ⟨s, he⟩
        · exact ih r hb k hk'

theorem lineRow_of_obj (fields : List String) (line : String)
    (obj : List (String × Json))
    (h : json_loads line = Except.ok (Json.jobj obj)) :
    lineRow fields line = buildRow obj fields := by
  simp [lineRow, h]

theorem lineRow_length (fields : List String) (line : String) (row : List String)
    (h : lineRow fields line = Except.ok row) : row.length = fields.length := by
  unfold lineRow at h
  cases hl : json_loads line with
  | error e => rw [hl] at h; cases h
  | ok v =>
    rw [hl] at h
    cases v with
    | jobj obj => exact buildRow_length obj fields row h
    | jnull => cases h
    | jbool b => cases h
    | jnum s => cases h
    | jstr s => cases h
    | jarr xs => cases h

theorem processLines_none (fields : List String) :
    ∀ (lines : List String), (processLines fields lines).err = none →
      ∀ l ∈ lines, ∃ r, lineRow fields l = Except.ok r := by
  intro lines
  induction lines with
  | nil => intro _ l hl; cases hl
  | cons a rest ih =>
    intro h l hl
    cases ha : lineRow fields a with
    | error e => simp [processLines, ha] at h
    | ok row =>
      simp only [processLines, ha] at h
      rcases List.mem_cons.mp hl with rfl | hl'
      · exact ⟨row, ha⟩
      · exact ih h l hl'

theorem processLines_get (fields : List String) :
    ∀ (lines : List String) (j : Nat) (row : List String),
      (processLines fields lines).rows[j]? = some row →
      ∃ line, lines[j]? = some line ∧ lineRow fields line = Except.ok row := by
  intro lines
  induction lines with
  | nil => intro j row h; simp [processLines] at h
  | cons a rest ih =>
    intro j row h
    cases ha : lineRow fields a with
    | error e => simp [processLines, ha] at h
    | ok r =>
      simp only [processLines, ha] at h
      cases j with
      | zero =>
        simp at h
        subst h
        exact ⟨a, by simp, ha⟩
      | succ j' =>
        simp at h
        obtain ⟨line, h1, h2⟩ := ih j' row h
        exact ⟨line, by simpa using h1, h2⟩

theorem processLines_ok (fields : List String) :
    ∀ (lines : List String),
      (∀ l ∈ lines, ∃ r, lineRow fields l = Except.ok r) →
      (processLines fields lines).err = none ∧
      (processLines fields lines).rows.length = lines.length ∧
      ∀ (j : Nat) (line : String), lines[j]? = some line →
        ∃ row, (processLines fields lines).rows[j]? = some row ∧
          lineRow fields line = Except.ok row := by
  intro lines
  induction lines with
  | nil =>
    intro _
    refine ⟨rfl, rfl, ?_⟩
    intro j line h
    simp at h
  | cons a rest ih =>
    intro h
    obtain ⟨r, hr⟩ := h a (List.mem_cons_self a rest)
    obtain ⟨he, hlen, hget⟩ := ih (fun l hl => h l (List.mem_cons_of_mem a hl))
    refine ⟨by simp [processLines, hr, he], by simp [processLines, hr, hlen], ?_⟩
    intro j line hj
    cases j with
    | zero =>
      simp at hj
      subst hj
      exact ⟨r, by simp [processLines, hr], hr⟩
    | succ j' =>
      simp at hj
      obtain ⟨row, h1, h2⟩ := hget j' line hj
      refine ⟨row, ?_, h2⟩
      simpa [processLines, hr] using h1

theorem processLines_err (fields : List String) :
    ∀ (lines : List String) (e : PyError),
      (processLines fields lines).err = some e →
      ∃ k line, k < lines.length ∧ lines[k]? = some line ∧
        lineRow fields line = Except.error e ∧
        (processLines fields lines).rows.length = k ∧
        ∀ j, j < k → ∃ l r, lines[j]? = some l ∧
          lineRow fields l = Except.ok r ∧
          (processLines fields lines).rows[j]? = some r := by
  intro lines
  induction lines with
  | nil => intro e h; simp [processLines] at h
  | cons a rest ih =>
    intro e h
    cases ha : lineRow fields a with
    | error e' =>
      simp [processLines, ha] at h
      subst h
      refine ⟨0, a, by simp, by simp, ha, by simp [processLines, ha], ?_⟩
      intro j hj
      omega
    | ok r =>
      simp only [processLines, ha] at h
      obtain ⟨k, line, hk, hgl, hle, hlen, hpre⟩ := ih e h
      refine ⟨k + 1, line, by simpa using Nat.succ_lt_succ hk, by simpa using hgl,
        hle, by simp [processLines, ha, hlen], ?_⟩
      intro j hj
      cases j with
      | zero => exact ⟨a, r, by simp, ha, by simp [processLines, ha]⟩
      | succ j' =>
        obtain ⟨l, r', h1, h2, h3⟩ := hpre j' (by omega)
        exact ⟨l, r', by simpa using h1, h2, by simpa [processLines, ha] using h3⟩

theorem obj_get_absent (obj : List (String × Json)) (k : String)
    (h : ∀ p ∈ obj, p.1 ≠ k) : obj_get obj k = Json.jstr "" := by
  unfold obj_get
  have hn : obj.reverse.find? (fun p => p.1 == k) = none := by
    rw [List.find?_eq_none]
    intro x hx
    simp only [beq_iff_eq]
    exact h x (List.mem_reverse.mp hx)
  rw [hn]

theorem escapeQuotes_eq_nil (l : List Char) (h : escapeQuotes l = []) : l = [] := by
  cases l with
  | nil => rfl
  | cons c rest =>
    by_cases hc : c = '"' <;> simp [escapeQuotes, hc] at h

theorem unescape_escape (l : List Char) :
    unescapeQuotes (escapeQuotes l) = l := by
  induction l with
  | nil => rfl
  | cons c rest ih =>
    by_cases hc : c = '"'
    · subst hc
      have h1 : escapeQuotes ('"' :: rest) = '"' :: '"' :: escapeQuotes rest := by
        simp [escapeQuotes]
      have h2 : unescapeQuotes ('"' :: '"' :: escapeQuotes rest) =
          '"' :: unescapeQuotes (escapeQuotes rest) := by
        simp [unescapeQuotes]
      rw [h1, h2, ih]
    · have h1 : escapeQuotes (c :: rest) = c :: escapeQuotes rest := by
        simp [escapeQuotes, hc]
      rw [h1]
      cases hr : escapeQuotes rest with
      | nil =>
        have hrest : rest = [] := escapeQuotes_eq_nil rest hr
        subst hrest
        rfl
      | cons d tail =>
        have h2 : unescapeQuotes (c :: d :: tail) = c :: unescapeQuotes (d :: tail) := by
          simp [unescapeQuotes, hc]
        rw [h2, ← hr, ih]

theorem unquote_quote (s : String) : unquoteCell (quoteCell s) = s := by
  unfold unquoteCell quoteCell
  cases s with
  | mk data =>
    congr 1
    show unescapeQuotes ((escapeQuotes data ++ ['"']).dropLast) = data
    rw [List.dropLast_concat]
    exact unescape_escape data

/-- An input whose lines all parse as JSON objects whose requested fields
are strings (or absent) makes every per-line row succeed. -/
theorem lines_ok (lines fields : List String)
    (h : ∀ line ∈ lines, ∃ obj, json_loads line = Except.ok (Json.jobj obj) ∧
          ∀ k ∈ fields, ∃ s, obj_get obj k = Json.jstr s) :
    ∀ l ∈ lines, ∃ r, lineRow fields l = Except.ok r := by
  intro l hl
  obtain ⟨obj, hobj, hvals⟩ := h l hl
  obtain ⟨row, hrow⟩ := buildRow_ok obj fields (fun k hk => by
    obtain ⟨s, hs⟩ := hvals k hk
    exact ⟨s, by rw [hs]; rfl⟩)
  exact ⟨row, by rw [lineRow_of_obj fields l obj hobj]; exact hrow⟩

/-! ### Concrete example data (the spec's worked example, and variants) -/

/-- The spec's example input line with fields `product_name` and
`manufacturer` present and `family` absent. -/
def exLine : String :=
  "\x7b\"product_name\": \"Widget\", \"manufacturer\": \"Acme\"\x7d"

/-- The spec's example field list. -/
def exFields : List String := ["product_name", "manufacturer", "family"]

/-- The object `exLine` parses to. -/
def exObj : List (String × Json) :=
  [("product_name", Json.jstr "Widget"), ("manufacturer", Json.jstr "Acme")]

/-- A line whose `family` field is JSON `null`. -/
def exLineNull : String := "\x7b\"family\": null\x7d"

/-- The object `exLineNull` parses to. -/
def exObjNull : List (String × Json) := [("family", Json.jnull)]

/-- A well-formed line followed by a malformed one. -/
def exLines : List String := ["\x7b\"a\": \"b\"\x7d", "not json"]

/-! ### The claims -/

/-- Claim C1: for every job whose input lines all parse as JSON objects
with string (or absent) values for the requested fields, `write_csv`
produces exactly one row per input line plus one header row (output row
count = input line count + 1); in particular an empty input yields only
the header row. -/
theorem write_csv_row_count (lines fields : List String)
    (h : ∀ line ∈ lines, ∃ obj, json_loads line = Except.ok (Json.jobj obj) ∧
          ∀ k ∈ fields, ∃ s, obj_get obj k = Json.jstr s) :
    (write_csv lines fields).rows.length = lines.length + 1 ∧
    write_csv [] fields = { rows := [fields], err := none } := by
  constructor
  · obtain ⟨_, hlen, _⟩ := processLines_ok fields lines (lines_ok lines fields h)
    show (fields :: (processLines fields lines).rows).length = lines.length + 1
    simp [hlen]
  · rfl

/-- Witness for C1 at the spec's example line and at the empty input. -/
theorem write_csv_row_count_witness :
    (write_csv [exLine] exFields).rows.length = 1 + 1 ∧
    write_csv [] exFields = { rows := [exFields], err := none } := by
  have h : ∀ line ∈ [exLine], ∃ obj, json_loads line = Except.ok (Json.jobj obj) ∧
      ∀ k ∈ exFields, ∃ s, obj_get obj k = Json.jstr s := by
    intro line hl
    have hle : line = exLine := by simpa using hl
    subst hle
    refine ⟨exObj, rfl, ?_⟩
    intro k hk
    simp [exFields] at hk
    rcases hk with rfl | rfl | rfl
    · exact ⟨"Widget", rfl⟩
    · exact ⟨"Acme", rfl⟩
    · exact ⟨"", rfl⟩
  exact ⟨(write_csv_row_count [exLine] exFields h).1,
    (write_csv_row_count [exLine] exFields h).2⟩

/-- Claim C2: every row `write_csv` emits — the header row and every data
row — has exactly as many cells as the configured field list, for every
input record regardless of which keys the record contains. -/
theorem write_csv_row_width (lines fields : List String) :
    ∀ row ∈ (write_csv lines fields).rows, row.length = fields.length := by
  intro row hrow
  have hc : (write_csv lines fields).rows = fields :: (processLines fields lines).rows := rfl
  rw [hc] at hrow
  rcases List.mem_cons.mp hrow with rfl | hrow'
  · rfl
  · obtain ⟨j, hj⟩ := List.getElem?_of_mem hrow'
    obtain ⟨line, _, hlr⟩ := processLines_get fields lines j row hj
    exact lineRow_length fields line row hlr

/-- Witness for C2: the data row of the spec's example has as many cells
as the field list. -/
theorem write_csv_row_width_witness :
    (["Widget", "Acme", ""] : List String).length = exFields.length :=
  write_csv_row_width [exLine] exFields ["Widget", "Acme", ""] (by decide)

/-- Claim C3: for every record and every requested field name absent from
that record, the corresponding output cell produced by `write_csv` is the
empty string. -/
theorem write_csv_missing_field_empty (lines fields : List String) (j i : Nat)
    (line : String) (obj : List (String × Json)) (k : String)
    (hline : lines[j]? = some line)
    (hparse : json_loads line = Except.ok (Json.jobj obj))
    (hk : fields[i]? = some k)
    (habs : ∀ p ∈ obj, p.1 ≠ k) :
    ∀ row, (write_csv lines fields).rows[j + 1]? = some row → row[i]? = some "" := by
  intro row hrow
  have hrow' : (processLines fields lines).rows[j]? = some row := by
    simpa [write_csv] using hrow
  obtain ⟨line', hl', hlr⟩ := processLines_get fields lines j row hrow'
  rw [hline] at hl'
  have hle : line = line' := Option.some.inj hl'
  subst hle
  rw [lineRow_of_obj fields line obj hparse] at hlr
  obtain ⟨s, hs, hgi⟩ := buildRow_get obj fields row i k hlr hk
  rw [obj_get_absent obj k habs] at hs
  simp [encode_utf8] at hs
  subst hs
  exact hgi

/-- Witness for C3 at the spec's worked example: the `family` cell of the
Widget/Acme row is the empty string. -/
theorem write_csv_missing_field_empty_witness :
    (["Widget", "Acme", ""] : List String)[2]? = some "" := by
  have habs : ∀ p ∈ exObj, p.1 ≠ "family" := by
    intro p hp
    simp [exObj] at hp
    rcases hp with rfl | rfl <;> decide
  exact write_csv_missing_field_empty [exLine] exFields 0 2 exLine exObj "family"
    rfl rfl rfl habs ["Widget", "Acme", ""] rfl

/-- Claim C4: in the CSV document `write_csv` produces, every cell of
every row — header cells and empty cells included — is wrapped in quote
characters. -/
theorem write_csv_all_cells_quoted (lines fields : List String) :
    (∀ row ∈ (write_csv lines fields).rows,
        renderRow row = String.intercalate "," (row.map quoteCell) ++ "\r\n" ∧
        ∀ cell ∈ row, ∃ mid, quoteCell cell = "\"" ++ mid ++ "\"") ∧
    quoteCell "" = "\"\"" := by
  refine ⟨?_, rfl⟩
  intro row _
  refine ⟨rfl, ?_⟩
  intro cell _
  exact ⟨String.mk (escapeQuotes cell.data), rfl⟩

/-- Witness for C4 at a header cell of the spec's example. -/
theorem write_csv_all_cells_quoted_witness :
    ∃ mid, quoteCell "family" = "\"" ++ mid ++ "\"" :=
  ((write_csv_all_cells_quoted [exLine] exFields).1 exFields (by decide)).2
    "family" (by decide)

/-- Claim C5: `write_csv` fails whenever an input line is not
syntactically valid JSON (`json.loads` raises), and whenever the line is
valid JSON but not a JSON object (the subsequent `.get` raises); the
error propagates to the caller and aborts the job. -/
theorem write_csv_parse_error_aborts (lines fields : List String) (line : String)
    (hmem : line ∈ lines)
    (hbad : json_loads line = Except.error PyError.valueError ∨
      ∃ v, json_loads line = Except.ok v ∧ ∀ obj, v ≠ Json.jobj obj) :
    (write_csv lines fields).err ≠ none := by
  intro hnone
  obtain ⟨r, hr⟩ := processLines_none fields lines
    (by simpa [write_csv] using hnone) line hmem
  rcases hbad with hb | ⟨v, hv, hvn⟩
  · simp [lineRow, hb] at hr
  · cases v with
    | jobj obj => exact absurd rfl (hvn obj)
    | jnull => simp [lineRow, hv] at hr
    | jbool b => simp [lineRow, hv] at hr
    | jnum s => simp [lineRow, hv] at hr
    | jstr s => simp [lineRow, hv] at hr
    | jarr xs => simp [lineRow, hv] at hr

/-- Witness for C5: a syntactically malformed line and a valid-JSON
non-object line each abort the job. -/
theorem write_csv_parse_error_aborts_witness :
    (write_csv ["not json"] ["a"]).err ≠ none ∧
    (write_csv ["[1, 2]"] ["a"]).err ≠ none :=
  ⟨write_csv_parse_error_aborts ["not json"] ["a"] "not json" (by decide) (Or.inl rfl),
   write_csv_parse_error_aborts ["[1, 2]"] ["a"] "[1, 2]" (by decide)
     (Or.inr ⟨Json.jarr [Json.jnum "1", Json.jnum "2"], rfl,
       fun obj h => Json.noConfusion h⟩)⟩

/-- Claim C6, counterexample: the claim says JSON numeric field values are
"coerced to text through the encoding step rather than causing failure";
in fact `5` has no `.encode` attribute, so the job fails with an
`AttributeError` and writes no data row. -/
theorem write_csv_numeric_not_coerced :
    (write_csv ["\x7b\"price\": 5\x7d"] ["price"]).err
        = some (PyError.attributeError "encode") ∧
    (write_csv ["\x7b\"price\": 5\x7d"] ["price"]).rows = [["price"]] := by
  exact ⟨rfl, rfl⟩

/-- Claim C6 as amended: for every input whose lines parse as JSON objects
with string (or absent) values for the requested fields, each produced
data-row cell holds exactly the record's original string value for that
field, and decoding the quoted cell returns it unchanged (per-cell
round-trip); numeric/boolean values are not coerced — they abort the job
(see the counterexample). -/
theorem write_csv_round_trip_strings (lines fields : List String)
    (h : ∀ line ∈ lines, ∃ obj, json_loads line = Except.ok (Json.jobj obj) ∧
          ∀ k ∈ fields, ∃ s, obj_get obj k = Json.jstr s)
    (j i : Nat) (line : String) (obj : List (String × Json)) (k s : String)
    (hline : lines[j]? = some line)
    (hparse : json_loads line = Except.ok (Json.jobj obj))
    (hk : fields[i]? = some k)
    (hs : obj_get obj k = Json.jstr s) :
    ∃ row, (write_csv lines fields).rows[j + 1]? = some row ∧
      row[i]? = some s ∧ unquoteCell (quoteCell s) = s := by
  obtain ⟨_, _, hget⟩ := processLines_ok fields lines (lines_ok lines fields h)
  obtain ⟨row, hrow, hlr⟩ := hget j line hline
  rw [lineRow_of_obj fields line obj hparse] at hlr
  obtain ⟨s', hs', hgi⟩ := buildRow_get obj fields row i k hlr hk
  rw [hs] at hs'
  simp [encode_utf8] at hs'
  subst hs'
  exact ⟨row, by simpa [write_csv] using hrow, hgi, unquote_quote s⟩

/-- Witness for the amended C6 at the spec's example: the `product_name`
cell round-trips to `Widget`. -/
theorem write_csv_round_trip_strings_witness :
    ∃ row, (write_csv [exLine] exFields).rows[0 + 1]? = some row ∧
      row[0]? = some "Widget" ∧ unquoteCell (quoteCell "Widget") = "Widget" := by
  have h : ∀ line ∈ [exLine], ∃ obj, json_loads line = Except.ok (Json.jobj obj) ∧
      ∀ k ∈ exFields, ∃ s, obj_get obj k = Json.jstr s := by
    intro line hl
    have hle : line = exLine := by simpa using hl
    subst hle
    refine ⟨exObj, rfl, ?_⟩
    intro k hk
    simp [exFields] at hk
    rcases hk with rfl | rfl | rfl
    · exact ⟨"Widget", rfl⟩
    · exact ⟨"Acme", rfl⟩
    · exact ⟨"", rfl⟩
  exact write_csv_round_trip_strings [exLine] exFields h 0 0 exLine exObj
    "product_name" "Widget" rfl rfl rfl rfl

/-- Claim C7: `write_csv` processes lines strictly in order and never
silently skips a malformed line — every emitted data row comes from the
in-order parse of the corresponding input line, and any line whose
processing fails makes the whole job fail. -/
theorem write_csv_strict_order (lines fields : List String) :
    (∀ (j : Nat) (row : List String),
        (write_csv lines fields).rows[j + 1]? = some row →
        ∃ line, lines[j]? = some line ∧ lineRow fields line = Except.ok row) ∧
    (∀ line ∈ lines, (∃ e, lineRow fields line = Except.error e) →
        (write_csv lines fields).err ≠ none) := by
  constructor
  · intro j row hrow
    exact processLines_get fields lines j row (by simpa [write_csv] using hrow)
  · rintro line hmem ⟨e, he⟩ hnone
    obtain ⟨r, hr⟩ := processLines_none fields lines
      (by simpa [write_csv] using hnone) line hmem
    rw [he] at hr
    cases hr

/-- Witness for C7: the example's data row is exactly the in-order parse
of the example line. -/
theorem write_csv_strict_order_witness :
    ∃ line, ([exLine] : List String)[0]? = some line ∧
      lineRow exFields line = Except.ok ["Widget", "Acme", ""] :=
  (write_csv_strict_order [exLine] exFields).1 0 ["Widget", "Acme", ""] rfl

/-- Claim C8 (implicit): a requested field that is present with JSON value
`null` is not replaced by the empty string (the default applies only to
absent keys); the lookup returns `null`, the encoding step raises
`AttributeError`, and the job aborts. -/
theorem write_csv_null_field_aborts (lines fields : List String) (line : String)
    (obj : List (String × Json)) (k : String)
    (hmem : line ∈ lines)
    (hparse : json_loads line = Except.ok (Json.jobj obj))
    (hk : k ∈ fields)
    (hnull : obj_get obj k = Json.jnull) :
    obj_get obj k ≠ Json.jstr "" ∧
    encode_utf8 (obj_get obj k) = Except.error (PyError.attributeError "encode") ∧
    (write_csv lines fields).err ≠ none := by
  refine ⟨by rw [hnull]; exact fun hx => Json.noConfusion hx, by rw [hnull]; rfl, ?_⟩
  intro hnone
  obtain ⟨r, hr⟩ := processLines_none fields lines
    (by simpa [write_csv] using hnone) line hmem
  rw [lineRow_of_obj fields line obj hparse] at hr
  obtain ⟨s, hs⟩ := buildRow_cells obj fields r hr k hk
  rw [hnull] at hs
  cases hs

/-- Witness for C8 at a line binding `family` to `null`. -/
theorem write_csv_null_field_aborts_witness :
    obj_get exObjNull "family" ≠ Json.jstr "" ∧
    encode_utf8 (obj_get exObjNull "family")
        = Except.error (PyError.attributeError "encode") ∧
    (write_csv [exLineNull] ["family"]).err ≠ none :=
  write_csv_null_field_aborts [exLineNull] ["family"] exLineNull exObjNull "family"
    (by decide) rfl (by decide) rfl

/-- Claim C9 (implicit): the header row is written before any input line
is parsed, so on a failure at line `k` (0-based) the destination already
holds the header plus the data rows of the first `k` lines; output
written before the error is not rolled back. -/
theorem write_csv_header_before_error (lines fields : List String) :
    (write_csv lines fields).rows.head? = some fields ∧
    ∀ e, (write_csv lines fields).err = some e →
      ∃ k line, k < lines.length ∧ lines[k]? = some line ∧
        lineRow fields line = Except.error e ∧
        (write_csv lines fields).rows.length = k + 1 ∧
        ∀ j, j < k → ∃ l r, lines[j]? = some l ∧ lineRow fields l = Except.ok r ∧
          (write_csv lines fields).rows[j + 1]? = some r := by
  refine ⟨rfl, ?_⟩
  intro e he
  obtain ⟨k, line, hk, hgl, hle, hlen, hpre⟩ := processLines_err fields lines e
    (by simpa [write_csv] using he)
  refine ⟨k, line, hk, hgl, hle, ?_, ?_⟩
  · show (fields :: (processLines fields lines).rows).length = k + 1
    simp [hlen]
  · intro j hj
    obtain ⟨l, r, h1, h2, h3⟩ := hpre j hj
    exact ⟨l, r, h1, h2, by simpa [write_csv] using h3⟩

/-- Witness for C9: with a good line followed by a malformed one, the file
holds the header and the first data row when the job aborts. -/
theorem write_csv_header_before_error_witness :
    (write_csv exLines ["a"]).rows.head? = some ["a"] ∧
    ∃ k line, k < exLines.length ∧ exLines[k]? = some line ∧
      lineRow ["a"] line = Except.error PyError.valueError ∧
      (write_csv exLines ["a"]).rows.length = k + 1 ∧
      ∀ j, j < k → ∃ l r, exLines[j]? = some l ∧ lineRow ["a"] l = Except.ok r ∧
        (write_csv exLines ["a"]).rows[j + 1]? = some r :=
  ⟨(write_csv_header_before_error exLines ["a"]).1,
   (write_csv_header_before_error exLines ["a"]).2 PyError.valueError rfl⟩

/-- Claim C10 (implicit): `write_csv` is deterministic — the run outcome,
and hence the rendered CSV byte content, depends on nothing besides the
input lines and the field list. -/
theorem write_csv_deterministic (lines lines' fields fields' : List String)
    (h1 : lines = lines') (h2 : fields = fields') :
    write_csv lines fields = write_csv lines' fields' ∧
    renderDoc (write_csv lines fields).rows
      = renderDoc (write_csv lines' fields').rows := by
  subst h1
  subst h2
  exact ⟨rfl, rfl⟩

/-- Witness for C10 at the spec's example job. -/
theorem write_csv_deterministic_witness :
    write_csv [exLine] exFields = write_csv [exLine] exFields ∧
    renderDoc (write_csv [exLine] exFields).rows
      = renderDoc (write_csv [exLine] exFields).rows :=
  write_csv_deterministic [exLine] [exLine] exFields exFields rfl rfl

end PrepareData
